import Mathlib

/-
Verification of the LLM invocation and structured-output recovery pipeline.

The definitions below are a shallow embedding of the Python source:
  * the structured-output extraction logic inlined in the career-path tab
    (object shape) and the recommendation tab (array shape) of Home.py,
  * GeminiClient.__init__, GeminiClient.generate and
    GeminiClient.generate_with_retry from src/llm/client.py.
Python strings are modelled as List Char, raised exceptions as Except.error,
and json.loads as an executable JSON parser over List Char.
-/

set_option maxRecDepth 4000

/-- The backtick character, written numerically. -/
def btick : Char := Char.ofNat 96

/-- The opening curly brace character. -/
def obrace : Char := Char.ofNat 123

/-- The closing curly brace character. -/
def cbrace : Char := Char.ofNat 125

/-- The markdown fence delimiter, three backticks. -/
def fenceChars : List Char := [btick, btick, btick]

/-- The JSON-tagged markdown fence opener, three backticks followed by json. -/
def fjsonChars : List Char := [btick, btick, btick, 'j', 's', 'o', 'n']

/-- Characters stripped by Python str.strip with no argument. -/
def pySpace (c : Char) : Bool :=
  c = ' ' || c = Char.ofNat 9 || c = Char.ofNat 10 || c = Char.ofNat 13 ||
  c = Char.ofNat 11 || c = Char.ofNat 12

/-- Python str.strip: remove whitespace from both ends. -/
def pyStrip (l : List Char) : List Char :=
  ((l.dropWhile pySpace).reverse.dropWhile pySpace).reverse

/-- leadsList a b is true when a is an initial segment of b
(the test Python performs at each scan position of str.find / in / split). -/
def leadsList : List Char → List Char → Bool
  | [], _ => true
  | _ :: _, [] => false
  | a :: as, b :: bs => a = b && leadsList as bs

/-- Python substring containment, sub in l. -/
def containsSub : List Char → List Char → Bool
  | [], sep => sep.isEmpty
  | c :: rest, sep => leadsList sep (c :: rest) || containsSub rest sep

/-- Fuel-driven worker for Python str.split with a non-empty separator
s0 :: srest: scan left to right, cut at each non-overlapping occurrence. -/
def splitF (s0 : Char) (srest : List Char) : Nat → List Char → List (List Char)
  | 0, l => [l]
  | _ + 1, [] => [[]]
  | fuel + 1, c :: rest =>
    if leadsList (s0 :: srest) (c :: rest) then
      [] :: splitF s0 srest fuel (rest.drop srest.length)
    else
      match splitF s0 srest fuel rest with
      | [] => [[c]]
      | h :: t => (c :: h) :: t

/-- Python str.split on a separator.  The empty-separator case is unreachable
in the extractor (Python raises ValueError there). -/
def pySplit (sep l : List Char) : List (List Char) :=
  match sep with
  | [] => [l]
  | s0 :: srest => splitF s0 srest l.length l

/-- Python str.find for a single character: index of first occurrence. -/
def findChar : List Char → Char → Option Nat
  | [], _ => none
  | c :: rest, ch => if c = ch then some 0 else (findChar rest ch).map (· + 1)

/-- Python str.rfind for a single character: index of last occurrence. -/
def rfindChar (l : List Char) (ch : Char) : Option Nat :=
  (findChar l.reverse ch).map (fun i => l.length - 1 - i)

/-- The first-to-last delimiter slice of Home.py:
if both op and cl occur, keep the substring from the first op
to the last cl inclusive, otherwise leave the text unchanged. -/
def delimTrim (op cl : Char) (j : List Char) : List Char :=
  match findChar j op with
  | none => j
  | some s =>
    match rfindChar j cl with
    | none => j
    | some e => (j.drop s).take (e + 1 - s)

/-- Python str.lower, character by character. -/
def pyLower (l : List Char) : List Char := l.map Char.toLower

/-- Parsed JSON values as produced by json.loads; numbers keep their
source token. -/
inductive Json where
  | null : Json
  | bool : Bool → Json
  | num : List Char → Json
  | str : List Char → Json
  | arr : List Json → Json
  | obj : List (List Char × Json) → Json

/-- Parser mode: a single value, array elements, or object members
with the members accumulated so far. -/
inductive PMode where
  | val : PMode
  | elems : PMode
  | members : List (List Char × Json) → PMode

/-- Parser intermediate result, tagged by mode. -/
inductive PRes where
  | v : Json → List Char → PRes
  | vs : List Json → List Char → PRes
  | kvs : List (List Char × Json) → List Char → PRes

def msgExpectingValue : String := "Expecting value"
def msgExtraData : String := "Extra data"
def msgUnterminated : String := "Unterminated string"
def msgBadEscape : String := "Invalid escape"
def msgBadHex : String := "Invalid hex escape"
def msgBadControl : String := "Invalid control character"
def msgExpectingComma : String := "Expecting comma delimiter"
def msgExpectingColon : String := "Expecting colon delimiter"
def msgExpectingName : String := "Expecting property name"
def msgTooDeep : String := "Nesting too deep"
def msgFracDigits : String := "Expecting digits in fraction"
def msgExpDigits : String := "Expecting digits in exponent"

/-- The backslash character. -/
def bslash : Char := Char.ofNat 92

/-- Hexadecimal digit value. -/
def hexVal (c : Char) : Option Nat :=
  if '0' ≤ c && c ≤ '9' then some (c.toNat - 48)
  else if 'a' ≤ c && c ≤ 'f' then some (c.toNat - 87)
  else if 'A' ≤ c && c ≤ 'F' then some (c.toNat - 55)
  else none

/-- Simple JSON string escapes. -/
def escChar (e : Char) : Option Char :=
  if e = '"' then some '"'
  else if e = bslash then some bslash
  else if e = '/' then some '/'
  else if e = 'b' then some (Char.ofNat 8)
  else if e = 'f' then some (Char.ofNat 12)
  else if e = 'n' then some (Char.ofNat 10)
  else if e = 'r' then some (Char.ofNat 13)
  else if e = 't' then some (Char.ofNat 9)
  else none

/-- Parse the body of a JSON string after the opening quote;
return the decoded characters and the remaining input. -/
def parseStrBody : List Char → Except String (List Char × List Char)
  | [] => Except.error msgUnterminated
  | c :: rest =>
    if c = '"' then Except.ok ([], rest)
    else if c = bslash then
      match rest with
      | [] => Except.error msgUnterminated
      | e :: r2 =>
        if e = 'u' then
          match r2 with
          | h1 :: h2 :: h3 :: h4 :: r3 =>
            match hexVal h1, hexVal h2, hexVal h3, hexVal h4 with
            | some a, some b, some c2, some d =>
              match parseStrBody r3 with
              | Except.error er => Except.error er
              | Except.ok (s, r) =>
                Except.ok (Char.ofNat (((a * 16 + b) * 16 + c2) * 16 + d) :: s, r)
            | _, _, _, _ => Except.error msgBadHex
          | _ => Except.error msgBadHex
        else
          match escChar e with
          | some ec =>
            match parseStrBody r2 with
            | Except.error er => Except.error er
            | Except.ok (s, r) => Except.ok (ec :: s, r)
          | none => Except.error msgBadEscape
    else if c.toNat < 32 then Except.error msgBadControl
    else
      match parseStrBody rest with
      | Except.error er => Except.error er
      | Except.ok (s, r) => Except.ok (c :: s, r)

/-- Decimal digit test. -/
def isDigitC (c : Char) : Bool := '0' ≤ c && c ≤ '9'

/-- Integer part of a JSON number: a single 0, or a nonzero digit
followed by digits. -/
def parseIntDigits : List Char → Except String (List Char × List Char)
  | [] => Except.error msgExpectingValue
  | c :: rest =>
    if c = '0' then Except.ok (['0'], rest)
    else if isDigitC c then
      Except.ok (c :: rest.takeWhile isDigitC, rest.dropWhile isDigitC)
    else Except.error msgExpectingValue

/-- Optional fractional part of a JSON number. -/
def parseFrac (l : List Char) : Except String (List Char × List Char) :=
  match l with
  | '.' :: r =>
    match r.takeWhile isDigitC with
    | [] => Except.error msgFracDigits
    | ds => Except.ok ('.' :: ds, r.dropWhile isDigitC)
  | _ => Except.ok ([], l)

/-- Optional exponent part of a JSON number. -/
def parseExp (l : List Char) : Except String (List Char × List Char) :=
  match l with
  | c :: r =>
    if c = 'e' || c = 'E' then
      match r with
      | s :: r2 =>
        if s = '+' || s = '-' then
          match r2.takeWhile isDigitC with
          | [] => Except.error msgExpDigits
          | ds => Except.ok (c :: s :: ds, r2.dropWhile isDigitC)
        else
          match r.takeWhile isDigitC with
          | [] => Except.error msgExpDigits
          | ds => Except.ok (c :: ds, r.dropWhile isDigitC)
      | [] => Except.error msgExpDigits
    else Except.ok ([], l)
  | [] => Except.ok ([], l)

/-- A JSON number token, including the Infinity constants that Python
json.loads accepts by default. -/
def parseNumber (l : List Char) : Except String (List Char × List Char) :=
  match l with
  | '-' :: 'I' :: 'n' :: 'f' :: 'i' :: 'n' :: 'i' :: 't' :: 'y' :: r =>
    Except.ok ('-' :: 'I' :: 'n' :: 'f' :: 'i' :: 'n' :: 'i' :: 't' :: 'y' :: [], r)
  | '-' :: r =>
    match parseIntDigits r with
    | Except.error e => Except.error e
    | Except.ok (ip, r2) =>
      match parseFrac r2 with
      | Except.error e => Except.error e
      | Except.ok (fp, r3) =>
        match parseExp r3 with
        | Except.error e => Except.error e
        | Except.ok (ep, r4) => Except.ok ('-' :: (ip ++ fp ++ ep), r4)
  | _ =>
    match parseIntDigits l with
    | Except.error e => Except.error e
    | Except.ok (ip, r2) =>
      match parseFrac r2 with
      | Except.error e => Except.error e
      | Except.ok (fp, r3) =>
        match parseExp r3 with
        | Except.error e => Except.error e
        | Except.ok (ep, r4) => Except.ok (ip ++ fp ++ ep, r4)

/-- JSON whitespace skipped between tokens, as in Python json.decoder. -/
def skipWs (l : List Char) : List Char :=
  l.dropWhile (fun c => c = ' ' || c = Char.ofNat 9 || c = Char.ofNat 10 || c = Char.ofNat 13)

/-- Insertion into a Python dict: an existing key keeps its position and
gets the new value, a new key is appended. -/
def dictSet : List (List Char × Json) → List Char → Json → List (List Char × Json)
  | [], k, v => [(k, v)]
  | (k0, v0) :: rest, k, v =>
    if k0 = k then (k0, v) :: rest else (k0, v0) :: dictSet rest k v

/-- The recursive JSON parser, fuel-driven so that it is structurally
recursive and computable by the kernel.  Mode selects between parsing one
value, the elements of an array, or the members of an object. -/
def parseJ : Nat → PMode → List Char → Except String PRes
  | 0, _, _ => Except.error msgTooDeep
  | fuel + 1, PMode.val, l =>
    match skipWs l with
    | [] => Except.error msgExpectingValue
    | c :: rest =>
      if c = 'n' then
        match rest with
        | 'u' :: 'l' :: 'l' :: r => Except.ok (PRes.v Json.null r)
        | _ => Except.error msgExpectingValue
      else if c = 't' then
        match rest with
        | 'r' :: 'u' :: 'e' :: r => Except.ok (PRes.v (Json.bool true) r)
        | _ => Except.error msgExpectingValue
      else if c = 'f' then
        match rest with
        | 'a' :: 'l' :: 's' :: 'e' :: r => Except.ok (PRes.v (Json.bool false) r)
        | _ => Except.error msgExpectingValue
      else if c = 'N' then
        match rest with
        | 'a' :: 'N' :: r => Except.ok (PRes.v (Json.num ('N' :: 'a' :: 'N' :: [])) r)
        | _ => Except.error msgExpectingValue
      else if c = 'I' then
        match rest with
        | 'n' :: 'f' :: 'i' :: 'n' :: 'i' :: 't' :: 'y' :: r =>
          Except.ok (PRes.v (Json.num ('I' :: 'n' :: 'f' :: 'i' :: 'n' :: 'i' :: 't' :: 'y' :: [])) r)
        | _ => Except.error msgExpectingValue
      else if c = '"' then
        match parseStrBody rest with
        | Except.error e => Except.error e
        | Except.ok (s, r) => Except.ok (PRes.v (Json.str s) r)
      else if c = '[' then
        match skipWs rest with
        | [] => Except.error msgExpectingValue
        | d :: r =>
          if d = ']' then Except.ok (PRes.v (Json.arr []) r)
          else
            match parseJ fuel PMode.elems (skipWs rest) with
            | Except.error e => Except.error e
            | Except.ok (PRes.vs xs r2) => Except.ok (PRes.v (Json.arr xs) r2)
            | Except.ok _ => Except.error msgTooDeep
      else if c = obrace then
        match skipWs rest with
        | [] => Except.error msgExpectingName
        | d :: r =>
          if d = cbrace then Except.ok (PRes.v (Json.obj []) r)
          else
            match parseJ fuel (PMode.members []) (skipWs rest) with
            | Except.error e => Except.error e
            | Except.ok (PRes.kvs kvs r2) => Except.ok (PRes.v (Json.obj kvs) r2)
            | Except.ok _ => Except.error msgTooDeep
      else if c = '-' || isDigitC c then
        match parseNumber (c :: rest) with
        | Except.error e => Except.error e
        | Except.ok (tok, r) => Except.ok (PRes.v (Json.num tok) r)
      else Except.error msgExpectingValue
  | fuel + 1, PMode.elems, l =>
    match parseJ fuel PMode.val l with
    | Except.error e => Except.error e
    | Except.ok (PRes.v x r) =>
      match skipWs r with
      | [] => Except.error msgExpectingComma
      | c :: r2 =>
        if c = ']' then Except.ok (PRes.vs [x] r2)
        else if c = ',' then
          match parseJ fuel PMode.elems r2 with
          | Except.error e => Except.error e
          | Except.ok (PRes.vs xs r3) => Except.ok (PRes.vs (x :: xs) r3)
          | Except.ok _ => Except.error msgTooDeep
        else Except.error msgExpectingComma
    | Except.ok _ => Except.error msgTooDeep
  | fuel + 1, PMode.members acc, l =>
    match skipWs l with
    | [] => Except.error msgExpectingName
    | c :: rest =>
      if c = '"' then
        match parseStrBody rest with
        | Except.error e => Except.error e
        | Except.ok (k, r2) =>
          match skipWs r2 with
          | [] => Except.error msgExpectingColon
          | d :: r3 =>
            if d = ':' then
              match parseJ fuel PMode.val r3 with
              | Except.error e => Except.error e
              | Except.ok (PRes.v v r4) =>
                match skipWs r4 with
                | [] => Except.error msgExpectingComma
                | e2 :: r5 =>
                  if e2 = cbrace then Except.ok (PRes.kvs (dictSet acc k v) r5)
                  else if e2 = ',' then parseJ fuel (PMode.members (dictSet acc k v)) r5
                  else Except.error msgExpectingComma
              | Except.ok _ => Except.error msgTooDeep
            else Except.error msgExpectingColon
      else Except.error msgExpectingName

/-- Parse one JSON value, returning it with the remaining input. -/
def parseValue (fuel : Nat) (l : List Char) : Except String (Json × List Char) :=
  match parseJ fuel PMode.val l with
  | Except.error e => Except.error e
  | Except.ok (PRes.v x r) => Except.ok (x, r)
  | Except.ok _ => Except.error msgTooDeep

/-- Python json.loads: parse one value and require that only whitespace
follows it. -/
def json_loads (s : List Char) : Except String Json :=
  match parseValue (3 * s.length + 3) s with
  | Except.error e => Except.error e
  | Except.ok (v, rest) =>
    if skipWs rest = [] then Except.ok v else Except.error msgExtraData

/-- The fence-isolation step shared by both tabs of Home.py:
strip the reply; if a JSON-tagged fence occurs, take the text between the
first such opener and the next fence and strip it; otherwise if a fence
occurs, take the first fenced segment and strip it; otherwise keep the
stripped reply. -/
def fenceExtract (resp : List Char) : List Char :=
  let j := pyStrip resp
  if containsSub j fjsonChars then
    pyStrip ((pySplit fenceChars ((pySplit fjsonChars j).getD 1 [])).getD 0 [])
  else if containsSub j fenceChars then
    let parts := pySplit fenceChars j
    if 2 ≤ parts.length then pyStrip (parts.getD 1 []) else j
  else j

/-- The career-path tab extraction (object shape): fence isolation, the
first-to-last brace slice, then json.loads. -/
def extractObj (resp : List Char) : Except String Json :=
  json_loads (delimTrim obrace cbrace (fenceExtract resp))

/-- The recommendation tab extraction (array shape): fence isolation, the
first-to-last bracket slice, then json.loads. -/
def extractArr (resp : List Char) : Except String Json :=
  json_loads (delimTrim '[' ']' (fenceExtract resp))

/-- The error classes distinguished by GeminiClient.generate when it
prints diagnostics for a failed call. -/
inductive ErrClass where
  | quotaExceeded : ErrClass
  | modelNotFound : ErrClass
  | unknownErr : ErrClass

def s429chars : List Char := ("429").data
def sResExChars : List Char := ("RESOURCE_EXHAUSTED").data
def s404chars : List Char := ("404").data
def sNotFoundChars : List Char := ("not found").data

/-- The diagnostic classification performed by GeminiClient.generate on the
text of the underlying exception. -/
def classifyError (e : List Char) : ErrClass :=
  if containsSub e s429chars || containsSub e sResExChars then ErrClass.quotaExceeded
  else if containsSub e s404chars || containsSub (pyLower e) sNotFoundChars then
    ErrClass.modelNotFound
  else ErrClass.unknownErr

/-- The prefix of the message of the exception re-raised by generate. -/
def genFailMsgHead : List Char := ("Gemini generation failed: ").data

/-- GeminiClient.generate, abstracted over the outcome of the single remote
call: a success is returned unchanged, a failure is re-raised as a generic
exception whose message is the prefixed original error text. -/
def generate (callResult : Except (List Char) (List Char)) : Except (List Char) (List Char) :=
  match callResult with
  | Except.ok t => Except.ok t
  | Except.error e => Except.error (genFailMsgHead ++ e)

/-- The constructed client state: an API key and a model name. -/
structure GeminiClientHandle where
  apiKey : List Char
  modelName : List Char

/-- The ValueError message raised by GeminiClient.__init__ when the key is
absent. -/
def apiKeyMissingMsg : List Char :=
  ("GOOGLE_API_KEY not found in environment variables. Please create a .env file with your API key. Get your key from: https://aistudio.google.com/apikey").data

/-- GeminiClient.__init__: read GOOGLE_API_KEY from the environment after
load_dotenv; a missing or empty value raises ValueError before any client
object is constructed. -/
def geminiClientInit (envKey : Option (List Char)) (modelName : List Char) :
    Except (List Char) GeminiClientHandle :=
  match envKey with
  | none => Except.error apiKeyMissingMsg
  | some k => if k = [] then Except.error apiKeyMissingMsg else Except.ok ⟨k, modelName⟩

/-- Outcome of generate_with_retry: a returned text, a re-raised exception,
or the implicit None returned when the loop body never runs. -/
inductive RetryOutcome where
  | value : List Char → RetryOutcome
  | raised : List Char → RetryOutcome
  | nonePy : RetryOutcome

/-- Observable trace of one generate_with_retry call: its outcome, the
sequence of sleeps, and the attempt indices at which the remote call ran. -/
structure RetryTrace where
  outcome : RetryOutcome
  sleeps : List Nat
  attempts : List Nat

/-- Whether an Except value is a success. -/
def exceptOk : Except (List Char) (List Char) → Bool
  | Except.ok _ => true
  | Except.error _ => false

/-- The loop of generate_with_retry: attempt is the current loop index,
r the number of loop iterations left, maxRetries the Python int argument.
On failure with attempt < maxRetries - 1 it sleeps 2 ^ attempt and retries,
otherwise it re-raises; a loop that runs out of iterations returns None. -/
def retryGo (call : Nat → Except (List Char) (List Char)) (maxRetries : Int) :
    Nat → Nat → RetryTrace
  | _, 0 => ⟨RetryOutcome.nonePy, [], []⟩
  | attempt, r + 1 =>
    match call attempt with
    | Except.ok t => ⟨RetryOutcome.value t, [], [attempt]⟩
    | Except.error e =>
      if (attempt : Int) < maxRetries - 1 then
        let rest := retryGo call maxRetries (attempt + 1) r
        ⟨rest.outcome, 2 ^ attempt :: rest.sleeps, attempt :: rest.attempts⟩
      else ⟨RetryOutcome.raised e, [], [attempt]⟩

/-- GeminiClient.generate_with_retry: for attempt in range(max_retries),
call generate; Python range clamps a non-positive bound to zero iterations. -/
def generate_with_retry (call : Nat → Except (List Char) (List Char))
    (maxRetries : Int) : RetryTrace :=
  retryGo call maxRetries 0 maxRetries.toNat

/-- The default value of the max_retries parameter. -/
def defaultMaxRetries : Int := 3

/-- The list a, a+1, ..., a+n-1. -/
def natsFrom (a : Nat) : Nat → List Nat
  | 0 => []
  | n + 1 => a :: natsFrom (a + 1) n

/- Concrete inputs used by witnesses and counterexamples. -/

def wNum42 : List Char := ("42").data
def wSorry : List Char := ("Sorry, I cannot help with that.").data
def eAuthMsg : List Char :=
  ("401 UNAUTHENTICATED: request had invalid authentication credentials").data
def eUnknownMsg : List Char := ("connection reset by peer").data
def wModelName : List Char := ("models/gemini-2.5-flash").data
def wErrA : List Char := ("boom one").data
def wErrB : List Char := ("boom two").data
def wTextT : List Char := ("generated text").data
def wQuotaCall : Nat → Except (List Char) (List Char) :=
  fun _ => Except.error (("429 RESOURCE_EXHAUSTED: quota exceeded").data)
def wAuthCall : Nat → Except (List Char) (List Char) :=
  fun _ => Except.error eAuthMsg
def wOkCall : Nat → Except (List Char) (List Char) := fun _ => Except.ok []
def wFlaky : Nat → Except (List Char) (List Char) :=
  fun n => if n = 0 then Except.error wErrA
    else if n = 1 then Except.error wErrB else Except.ok wTextT

def wP1 : List Char := ("Here is your curriculum plan: ").data
def wMid : List Char :=
  Char.ofNat 10 :: ([obrace] ++ ("\"title\":\"X\",\"total_credits\":12").data ++ [cbrace, Char.ofNat 10])
def wMidJson : Json :=
  Json.obj [(("title").data, Json.str (("X").data)), (("total_credits").data, Json.num (("12").data))]
def wP2 : List Char := (" Let me know if you need changes.").data
def wRawTagged : List Char := wP1 ++ fjsonChars ++ wMid ++ fenceChars ++ wP2

def wP1U : List Char := ("Sure thing:").data
def wMidU : List Char :=
  Char.ofNat 10 :: ([obrace] ++ ("\"ok\":true").data ++ [cbrace, Char.ofNat 10])
def wP2U : List Char := (" Done.").data
def wRawUntagged : List Char := wP1U ++ fenceChars ++ wMidU ++ fenceChars ++ wP2U

def wObjSeg : List Char := [obrace] ++ ("\"a\":1").data ++ [cbrace]
def wObjPre : List Char := ("Answer: ").data
def wObjPost : List Char := (" Thanks").data
def wRawScan : List Char := wObjPre ++ wObjSeg ++ wObjPost
def wObjVal : Json := Json.obj [(("a").data, Json.num (("1").data))]
def wArrSeg : List Char :=
  '[' :: ([obrace] ++ ("\"code\":\"C1\",\"credits\":3").data ++ [cbrace]) ++ [']']
def wArrVal : Json :=
  Json.arr [Json.obj [(("code").data, Json.str (("C1").data)), (("credits").data, Json.num (("3").data))]]

/- List helpers. -/

theorem dropLenAppend : ∀ (a b : List Char), (a ++ b).drop a.length = b := by
  intro a b
  induction a with
  | nil => rfl
  | cons c a' ih => exact ih

theorem takeLenAppend : ∀ (a b : List Char), (a ++ b).take a.length = a := by
  intro a b
  induction a with
  | nil => rfl
  | cons c a' ih => simp [ih]

/- leadsList lemmas. -/

theorem leadsList_iff : ∀ (a b : List Char), leadsList a b = true ↔ ∃ t, a ++ t = b := by
  intro a
  induction a with
  | nil => intro b; simp [leadsList]
  | cons x as ih =>
    intro b
    cases b with
    | nil => simp [leadsList]
    | cons y bs =>
      simp only [leadsList, Bool.and_eq_true, decide_eq_true_eq, ih bs]
      constructor
      · rintro ⟨hxy, t, ht⟩
        exact ⟨t, by simp [hxy, ht]⟩
      · rintro ⟨t, ht⟩
        injection ht with h1 h2
        exact ⟨h1, t, h2⟩

theorem leadsList_trans (a b c : List Char)
    (h1 : leadsList a b = true) (h2 : leadsList b c = true) : leadsList a c = true := by
  obtain ⟨t1, ht1⟩ := (leadsList_iff a b).mp h1
  obtain ⟨t2, ht2⟩ := (leadsList_iff b c).mp h2
  exact (leadsList_iff a c).mpr ⟨t1 ++ t2, by rw [← List.append_assoc, ht1, ht2]⟩

theorem leadsList_append_eq : ∀ (s x b : List Char), s.length ≤ x.length →
    leadsList s (x ++ b) = leadsList s x := by
  intro s
  induction s with
  | nil => intro x b _; rfl
  | cons a as ih =>
    intro x b h
    cases x with
    | nil => simp at h
    | cons y xs =>
      simp only [List.cons_append, leadsList]
      rw [show leadsList as (xs.append b) = leadsList as xs from ih xs b (by simpa using h)]

theorem leads_btick_head (s' p2 : List Char) (hp2 : p2.take 1 ≠ [btick]) :
    leadsList (btick :: s') p2 = false := by
  cases p2 with
  | nil => rfl
  | cons q p2' =>
    have hq : ¬(btick = q) := by
      intro h
      exact hp2 (by simp [List.take, h])
    simp [leadsList, hq]

/- pySplit lemmas. -/

theorem splitF_fuel_eq (s0 : Char) (srest : List Char) :
    ∀ f1 : Nat, ∀ l : List Char, ∀ f2 : Nat, l.length ≤ f1 → l.length ≤ f2 →
    splitF s0 srest f1 l = splitF s0 srest f2 l := by
  intro f1
  induction f1 with
  | zero =>
    intro l f2 h1 _
    have hl : l = [] := by cases l with | nil => rfl | cons c r => simp at h1
    subst hl
    cases f2 <;> rfl
  | succ f ih =>
    intro l f2 h1 h2
    cases l with
    | nil => cases f2 <;> rfl
    | cons c rest =>
      cases f2 with
      | zero => simp at h2
      | succ g =>
        simp only [splitF]
        by_cases hp : leadsList (s0 :: srest) (c :: rest) = true
        · rw [hp]
          simp only [if_true]
          rw [ih (rest.drop srest.length) g
            (by simp at h1 ⊢; omega) (by simp at h2 ⊢; omega)]
        · have hnp : leadsList (s0 :: srest) (c :: rest) = false := by
            cases hx : leadsList (s0 :: srest) (c :: rest)
            · rfl
            · exact absurd hx hp
          rw [hnp]
          simp only [Bool.false_eq_true, if_false]
          rw [ih rest g (by simp at h1; omega) (by simp at h2; omega)]

theorem pySplit_ne_nil (s0 : Char) (srest : List Char) :
    ∀ l : List Char, pySplit (s0 :: srest) l ≠ [] := by
  intro l
  cases l with
  | nil => simp [pySplit, splitF]
  | cons c rest =>
    show splitF s0 srest (rest.length + 1) (c :: rest) ≠ []
    simp only [splitF]
    by_cases hp : leadsList (s0 :: srest) (c :: rest) = true
    · simp [hp]
    · have hnp : leadsList (s0 :: srest) (c :: rest) = false := by
        cases hx : leadsList (s0 :: srest) (c :: rest)
        · rfl
        · exact absurd hx hp
      simp only [hnp, Bool.false_eq_true, if_false]
      cases hsp : splitF s0 srest rest.length rest <;> simp

theorem pySplit_pos (s0 : Char) (srest : List Char) (c : Char) (rest : List Char)
    (hp : leadsList (s0 :: srest) (c :: rest) = true) :
    pySplit (s0 :: srest) (c :: rest)
      = [] :: pySplit (s0 :: srest) (rest.drop srest.length) := by
  show splitF s0 srest (rest.length + 1) (c :: rest) = _
  simp only [splitF, hp, if_true]
  rw [splitF_fuel_eq s0 srest rest.length (rest.drop srest.length) (rest.drop srest.length).length
    (by simp only [List.length_drop]; omega) (le_refl _)]
  rfl

theorem pySplit_neg_cons (s0 : Char) (srest : List Char) (c : Char) (rest : List Char)
    (hnp : leadsList (s0 :: srest) (c :: rest) = false) (h : List Char) (t : List (List Char))
    (hr : pySplit (s0 :: srest) rest = h :: t) :
    pySplit (s0 :: srest) (c :: rest) = (c :: h) :: t := by
  show splitF s0 srest (rest.length + 1) (c :: rest) = _
  simp only [splitF, hnp, Bool.false_eq_true, if_false]
  have hr' : splitF s0 srest rest.length rest = h :: t := hr
  rw [hr']

theorem firstSeg_cons (s0 : Char) (srest : List Char) (c : Char) (rest : List Char)
    (hnp : leadsList (s0 :: srest) (c :: rest) = false) :
    (pySplit (s0 :: srest) (c :: rest)).getD 0 []
      = c :: (pySplit (s0 :: srest) rest).getD 0 [] := by
  cases hx : pySplit (s0 :: srest) rest with
  | nil => exact absurd hx (pySplit_ne_nil s0 srest rest)
  | cons h0 t0 =>
    rw [pySplit_neg_cons s0 srest c rest hnp h0 t0 hx]
    simp [List.getD]

theorem firstSeg_leads (s0 : Char) (srest : List Char) :
    ∀ l : List Char, ∃ t, (pySplit (s0 :: srest) l).getD 0 [] ++ t = l := by
  intro l
  induction l with
  | nil => exact ⟨[], rfl⟩
  | cons c rest ih =>
    by_cases hp : leadsList (s0 :: srest) (c :: rest) = true
    · rw [pySplit_pos s0 srest c rest hp]
      exact ⟨c :: rest, rfl⟩
    · have hnp : leadsList (s0 :: srest) (c :: rest) = false := by
        cases hx : leadsList (s0 :: srest) (c :: rest)
        · rfl
        · exact absurd hx hp
      obtain ⟨t, ht⟩ := ih
      rw [firstSeg_cons s0 srest c rest hnp]
      exact ⟨t, by rw [List.cons_append, ht]⟩

theorem pySplit_append (s0 : Char) (srest : List Char) :
    ∀ a b : List Char,
    pySplit (s0 :: srest) (a ++ (s0 :: srest)) = [a, []] →
    pySplit (s0 :: srest) (a ++ (s0 :: srest) ++ b) = a :: pySplit (s0 :: srest) b := by
  intro a
  induction a with
  | nil =>
    intro b _
    simp only [List.nil_append]
    have hp : leadsList (s0 :: srest) (s0 :: (srest ++ b)) = true :=
      (leadsList_iff _ _).mpr ⟨b, rfl⟩
    rw [show (s0 :: srest) ++ b = s0 :: (srest ++ b) from rfl]
    rw [pySplit_pos s0 srest s0 (srest ++ b) hp, dropLenAppend]
  | cons c a' ih =>
    intro b h
    rw [show (c :: a') ++ (s0 :: srest) = c :: (a' ++ (s0 :: srest)) from rfl] at h
    by_cases hp : leadsList (s0 :: srest) (c :: (a' ++ (s0 :: srest))) = true
    · rw [pySplit_pos s0 srest c _ hp] at h
      simp at h
    · have hnp : leadsList (s0 :: srest) (c :: (a' ++ (s0 :: srest))) = false := by
        cases hx : leadsList (s0 :: srest) (c :: (a' ++ (s0 :: srest)))
        · rfl
        · exact absurd hx hp
      cases hx : pySplit (s0 :: srest) (a' ++ (s0 :: srest)) with
      | nil => exact absurd hx (pySplit_ne_nil s0 srest _)
      | cons h0 t0 =>
        rw [pySplit_neg_cons s0 srest c _ hnp h0 t0 hx] at h
        injection h with h1 h2
        injection h1 with h1a h1b
        rw [h1b, h2] at hx
        have ih' := ih b hx
        have hnp2 : leadsList (s0 :: srest) (c :: (a' ++ (s0 :: srest) ++ b)) = false := by
          rw [show c :: (a' ++ (s0 :: srest) ++ b) = (c :: (a' ++ (s0 :: srest))) ++ b from rfl]
          rw [leadsList_append_eq _ _ _ (by simp [List.length_append]; omega)]
          exact hnp
        cases hy : pySplit (s0 :: srest) (a' ++ (s0 :: srest) ++ b) with
        | nil => exact absurd hy (pySplit_ne_nil s0 srest _)
        | cons hh tt =>
          rw [show (c :: a') ++ (s0 :: srest) ++ b = c :: (a' ++ (s0 :: srest) ++ b) from rfl]
          rw [pySplit_neg_cons s0 srest c _ hnp2 hh tt hy]
          rw [hy] at ih'
          injection ih' with ha hb
          rw [ha, hb]

theorem containsSub_append (s0 : Char) (srest : List Char) :
    ∀ a b : List Char, containsSub (a ++ (s0 :: srest) ++ b) (s0 :: srest) = true := by
  intro a b
  induction a with
  | nil =>
    show containsSub (s0 :: (srest ++ b)) (s0 :: srest) = true
    simp only [containsSub]
    have hp : leadsList (s0 :: srest) (s0 :: (srest ++ b)) = true :=
      (leadsList_iff _ _).mpr ⟨b, rfl⟩
    rw [hp]
    rfl
  | cons c a' ih =>
    show containsSub (c :: (a' ++ (s0 :: srest) ++ b)) (s0 :: srest) = true
    simp only [containsSub]
    rw [ih]
    simp

theorem contains_fjson_fence :
    ∀ l : List Char, containsSub l fjsonChars = true → containsSub l fenceChars = true := by
  intro l
  induction l with
  | nil => intro h; simp [containsSub, fjsonChars, List.isEmpty] at h
  | cons c rest ih =>
    intro h
    simp only [containsSub, Bool.or_eq_true] at h ⊢
    cases h with
    | inl h => exact Or.inl (leadsList_trans fenceChars fjsonChars (c :: rest) (by decide) h)
    | inr h => exact Or.inr (ih h)

/- findChar and delimTrim lemmas. -/

theorem findChar_append_head (op : Char) (r : List Char) :
    ∀ pre : List Char, op ∉ pre → findChar (pre ++ (op :: r)) op = some pre.length := by
  intro pre
  induction pre with
  | nil => intro _; simp [findChar]
  | cons c pre' ih =>
    intro hop
    have hcop : ¬(c = op) := by
      intro h
      exact hop (by rw [h]; exact List.mem_cons_self _ _)
    simp only [List.cons_append, findChar, if_neg hcop]
    rw [show findChar (pre'.append (op :: r)) op = some pre'.length from
      ih (fun hm => hop (List.mem_cons_of_mem _ hm))]
    simp

theorem delimTrim_head_last (op cl : Char) (l : List Char)
    (hh : l.head? = some op) (hl : l.getLast? = some cl) : delimTrim op cl l = l := by
  cases l with
  | nil => simp at hh
  | cons c rest =>
    have hc : c = op := by simpa using hh
    subst hc
    have h1 : findChar (c :: rest) c = some 0 := by simp [findChar]
    have hrev : (c :: rest).reverse.head? = some cl := by
      rw [List.head?_reverse]
      exact hl
    obtain ⟨rr, hrr⟩ : ∃ rr, (c :: rest).reverse = cl :: rr := by
      cases hx : (c :: rest).reverse with
      | nil => rw [hx] at hrev; simp at hrev
      | cons d t =>
        rw [hx] at hrev
        simp at hrev
        exact ⟨t, by rw [hrev]⟩
    have h2 : rfindChar (c :: rest) cl = some ((c :: rest).length - 1) := by
      unfold rfindChar
      rw [hrr]
      simp [findChar]
    simp only [delimTrim, h1, h2]
    have h3 : (c :: rest).length - 1 + 1 - 0 = (c :: rest).length := by
      simp
    rw [h3, List.drop_zero, List.take_length]

theorem delimTrim_isolate (op cl : Char) (pre seg post : List Char)
    (hop : op ∉ pre) (hcl : cl ∉ post)
    (hh : seg.head? = some op) (hl : seg.getLast? = some cl) :
    delimTrim op cl (pre ++ seg ++ post) = seg := by
  cases seg with
  | nil => simp at hh
  | cons s0 segr =>
    have hs0 : s0 = op := by simpa using hh
    subst hs0
    have h1 : findChar (pre ++ (s0 :: segr) ++ post) s0 = some pre.length := by
      rw [List.append_assoc]
      exact findChar_append_head s0 (segr ++ post) pre hop
    have hrev : (s0 :: segr).reverse.head? = some cl := by
      rw [List.head?_reverse]
      exact hl
    obtain ⟨rr, hrr⟩ : ∃ rr, (s0 :: segr).reverse = cl :: rr := by
      cases hx : (s0 :: segr).reverse with
      | nil => rw [hx] at hrev; simp at hrev
      | cons d t =>
        rw [hx] at hrev
        simp at hrev
        exact ⟨t, by rw [hrev]⟩
    have h2 : rfindChar (pre ++ (s0 :: segr) ++ post) cl
        = some (pre.length + (s0 :: segr).length - 1) := by
      unfold rfindChar
      have hf : findChar (pre ++ (s0 :: segr) ++ post).reverse cl
          = some post.reverse.length := by
        rw [List.reverse_append, List.reverse_append, hrr]
        exact findChar_append_head cl (rr ++ pre.reverse) post.reverse (by simpa using hcl)
      rw [hf]
      show some ((pre ++ (s0 :: segr) ++ post).length - 1 - post.reverse.length)
        = some (pre.length + (s0 :: segr).length - 1)
      congr 1
      simp only [List.length_append, List.length_reverse, List.length_cons]
      omega
    simp only [delimTrim, h1, h2]
    have h3 : pre.length + (s0 :: segr).length - 1 + 1 - pre.length = (s0 :: segr).length := by
      simp only [List.length_cons]
      omega
    rw [h3, List.append_assoc, dropLenAppend, takeLenAppend]

theorem delimTrim_none (op cl : Char) (j : List Char)
    (h : findChar j op = none ∨ rfindChar j cl = none) : delimTrim op cl j = j := by
  rcases h with h | h
  · simp [delimTrim, h]
  · cases hf : findChar j op with
    | none => simp [delimTrim, hf]
    | some s => simp [delimTrim, hf, h]

theorem fence_after_fjson (p2 : List Char) (hp2 : p2.take 1 ≠ [btick]) :
    ∀ mid : List Char,
    pySplit fenceChars (mid ++ fenceChars) = [mid, []] →
    (pySplit fenceChars ((pySplit fjsonChars (mid ++ fenceChars ++ p2)).getD 0 [])).getD 0 []
      = mid := by
  have hbj : leadsList (btick :: ['j', 's', 'o', 'n']) p2 = false :=
    leads_btick_head ['j', 's', 'o', 'n'] p2 hp2
  have hbj2 : leadsList (btick :: [btick, 'j', 's', 'o', 'n']) p2 = false :=
    leads_btick_head [btick, 'j', 's', 'o', 'n'] p2 hp2
  simp only [fenceChars, fjsonChars]
  intro mid
  induction mid with
  | nil =>
    intro _
    simp only [List.nil_append]
    rw [show ([btick, btick, btick] : List Char) ++ p2 = btick :: (btick :: btick :: p2) from rfl]
    by_cases hj : leadsList (btick :: [btick, btick, 'j', 's', 'o', 'n'])
        (btick :: (btick :: btick :: p2)) = true
    · rw [pySplit_pos btick [btick, btick, 'j', 's', 'o', 'n'] btick (btick :: btick :: p2) hj]
      rfl
    · have hnj1 : leadsList (btick :: [btick, btick, 'j', 's', 'o', 'n'])
          (btick :: (btick :: btick :: p2)) = false := by
        cases hx : leadsList (btick :: [btick, btick, 'j', 's', 'o', 'n'])
            (btick :: (btick :: btick :: p2))
        · rfl
        · exact absurd hx hj
      rw [firstSeg_cons btick [btick, btick, 'j', 's', 'o', 'n'] btick (btick :: btick :: p2) hnj1]
      have hnj2 : leadsList (btick :: [btick, btick, 'j', 's', 'o', 'n'])
          (btick :: (btick :: p2)) = false := by
        simp [leadsList, hbj]
      rw [firstSeg_cons btick [btick, btick, 'j', 's', 'o', 'n'] btick (btick :: p2) hnj2]
      have hnj3 : leadsList (btick :: [btick, btick, 'j', 's', 'o', 'n']) (btick :: p2) = false := by
        simp [leadsList, hbj2]
      rw [firstSeg_cons btick [btick, btick, 'j', 's', 'o', 'n'] btick p2 hnj3]
      have hpos : leadsList (btick :: [btick, btick])
          (btick :: (btick :: btick :: (pySplit [btick, btick, btick, 'j', 's', 'o', 'n'] p2).getD 0 []))
          = true :=
        (leadsList_iff _ _).mpr ⟨(pySplit [btick, btick, btick, 'j', 's', 'o', 'n'] p2).getD 0 [], rfl⟩
      rw [pySplit_pos btick [btick, btick] btick
        (btick :: btick :: (pySplit [btick, btick, btick, 'j', 's', 'o', 'n'] p2).getD 0 []) hpos]
      rfl
  | cons c mid' ih =>
    intro hmid
    rw [show (c :: mid') ++ [btick, btick, btick] = c :: (mid' ++ [btick, btick, btick]) from rfl]
      at hmid
    by_cases hp : leadsList (btick :: [btick, btick]) (c :: (mid' ++ [btick, btick, btick])) = true
    · rw [pySplit_pos btick [btick, btick] c (mid' ++ [btick, btick, btick]) hp] at hmid
      simp at hmid
    · have hnp : leadsList (btick :: [btick, btick]) (c :: (mid' ++ [btick, btick, btick])) = false := by
        cases hx : leadsList (btick :: [btick, btick]) (c :: (mid' ++ [btick, btick, btick]))
        · rfl
        · exact absurd hx hp
      cases hx : pySplit (btick :: [btick, btick]) (mid' ++ [btick, btick, btick]) with
      | nil => exact absurd hx (pySplit_ne_nil btick [btick, btick] _)
      | cons h0 t0 =>
        rw [pySplit_neg_cons btick [btick, btick] c (mid' ++ [btick, btick, btick]) hnp h0 t0 hx]
          at hmid
        injection hmid with h1 h2
        injection h1 with h1a h1b
        rw [h1b, h2] at hx
        have hfence_ext : leadsList (btick :: [btick, btick])
            (c :: (mid' ++ [btick, btick, btick] ++ p2)) = false := by
          rw [show c :: (mid' ++ [btick, btick, btick] ++ p2)
              = (c :: (mid' ++ [btick, btick, btick])) ++ p2 from rfl]
          rw [leadsList_append_eq (btick :: [btick, btick]) (c :: (mid' ++ [btick, btick, btick])) p2
            (by simp [List.length_append])]
          exact hnp
        have hfj : leadsList (btick :: [btick, btick, 'j', 's', 'o', 'n'])
            (c :: (mid' ++ [btick, btick, btick] ++ p2)) = false := by
          cases hval : leadsList (btick :: [btick, btick, 'j', 's', 'o', 'n'])
              (c :: (mid' ++ [btick, btick, btick] ++ p2))
          · rfl
          · have hcon := leadsList_trans (btick :: [btick, btick])
              (btick :: [btick, btick, 'j', 's', 'o', 'n'])
              (c :: (mid' ++ [btick, btick, btick] ++ p2)) (by decide) hval
            rw [hfence_ext] at hcon
            simp at hcon
        rw [show (c :: mid') ++ [btick, btick, btick] ++ p2
            = c :: (mid' ++ [btick, btick, btick] ++ p2) from rfl]
        rw [firstSeg_cons btick [btick, btick, 'j', 's', 'o', 'n'] c
          (mid' ++ [btick, btick, btick] ++ p2) hfj]
        obtain ⟨t, ht⟩ := firstSeg_leads btick [btick, btick, 'j', 's', 'o', 'n']
          (mid' ++ [btick, btick, btick] ++ p2)
        have hfc : leadsList (btick :: [btick, btick])
            (c :: (pySplit (btick :: [btick, btick, 'j', 's', 'o', 'n'])
              (mid' ++ [btick, btick, btick] ++ p2)).getD 0 []) = false := by
          cases hval : leadsList (btick :: [btick, btick])
              (c :: (pySplit (btick :: [btick, btick, 'j', 's', 'o', 'n'])
                (mid' ++ [btick, btick, btick] ++ p2)).getD 0 [])
          · rfl
          · obtain ⟨u, hu⟩ := (leadsList_iff _ _).mp hval
            have hext : leadsList (btick :: [btick, btick])
                (c :: (mid' ++ [btick, btick, btick] ++ p2)) = true := by
              apply (leadsList_iff _ _).mpr
              refine ⟨u ++ t, ?_⟩
              rw [← List.append_assoc, hu, List.cons_append, ht]
            rw [hfence_ext] at hext
            simp at hext
        rw [firstSeg_cons btick [btick, btick] c
          ((pySplit (btick :: [btick, btick, 'j', 's', 'o', 'n'])
            (mid' ++ [btick, btick, btick] ++ p2)).getD 0 []) hfc]
        rw [ih hx]

theorem fenceExtract_no_fence (raw : List Char)
    (hnf : containsSub (pyStrip raw) fenceChars = false) :
    fenceExtract raw = pyStrip raw := by
  have hnj : containsSub (pyStrip raw) fjsonChars = false := by
    cases hx : containsSub (pyStrip raw) fjsonChars
    · rfl
    · rw [contains_fjson_fence (pyStrip raw) hx] at hnf
      simp at hnf
  simp [fenceExtract, hnj, hnf]

/- Retry loop lemmas. -/

theorem retryGo_all_fail (call : Nat → Except (List Char) (List Char))
    (errf : Nat → List Char) (hf : ∀ i, call i = Except.error (errf i)) (maxR : Int) :
    ∀ r : Nat, ∀ a : Nat, 1 ≤ r → (a : Int) + (r : Int) = maxR →
    retryGo call maxR a r = ⟨RetryOutcome.raised (errf (a + r - 1)),
      (natsFrom a (r - 1)).map (fun k => 2 ^ k), natsFrom a r⟩ := by
  intro r
  induction r with
  | zero => intro a h1 _; omega
  | succ r' ih =>
    intro a h1 h2
    simp only [retryGo, hf a]
    cases r' with
    | zero =>
      rw [if_neg (by push_cast at h2 ⊢; omega)]
      simp [natsFrom]
    | succ r'' =>
      rw [if_pos (by push_cast at h2 ⊢; omega)]
      rw [ih (a + 1) (by omega) (by push_cast at h2 ⊢; omega)]
      have e1 : a + 1 + (r'' + 1) - 1 = a + (r'' + 1 + 1) - 1 := by omega
      have e2 : natsFrom a (r'' + 1 + 1 - 1) = a :: natsFrom (a + 1) (r'' + 1 - 1) := by
        simp [natsFrom]
      have e3 : natsFrom a (r'' + 1 + 1) = a :: natsFrom (a + 1) (r'' + 1) := by
        simp [natsFrom]
      rw [e1, e2, e3]
      simp

theorem retryGo_pattern_eq (c1 c2 : Nat → Except (List Char) (List Char)) (maxR : Int)
    (hsame : ∀ i, exceptOk (c1 i) = exceptOk (c2 i)) :
    ∀ r : Nat, ∀ a : Nat,
    (retryGo c1 maxR a r).sleeps = (retryGo c2 maxR a r).sleeps ∧
    (retryGo c1 maxR a r).attempts = (retryGo c2 maxR a r).attempts := by
  intro r
  induction r with
  | zero => intro a; exact ⟨rfl, rfl⟩
  | succ r' ih =>
    intro a
    have h := hsame a
    cases hc1 : c1 a with
    | ok t1 =>
      cases hc2 : c2 a with
      | ok t2 => simp [retryGo, hc1, hc2]
      | error e2 => rw [hc1, hc2] at h; simp [exceptOk] at h
    | error e1 =>
      cases hc2 : c2 a with
      | ok t2 => rw [hc1, hc2] at h; simp [exceptOk] at h
      | error e2 =>
        simp only [retryGo, hc1, hc2]
        by_cases hlt : (a : Int) < maxR - 1
        · rw [if_pos hlt, if_pos hlt]
          obtain ⟨hs, ha⟩ := ih (a + 1)
          simp [hs, ha]
        · rw [if_neg hlt, if_neg hlt]
          exact ⟨rfl, rfl⟩

theorem retryGo_sleeps_shape (call : Nat → Except (List Char) (List Char)) (maxR : Int) :
    ∀ r : Nat, ∀ a : Nat,
    (retryGo call maxR a r).sleeps
      = (natsFrom a (retryGo call maxR a r).sleeps.length).map (fun k => 2 ^ k) := by
  intro r
  induction r with
  | zero => intro a; rfl
  | succ r' ih =>
    intro a
    cases hc : call a with
    | ok t => simp [retryGo, hc, natsFrom]
    | error e =>
      simp only [retryGo, hc]
      by_cases hlt : (a : Int) < maxR - 1
      · rw [if_pos hlt]
        show 2 ^ a :: (retryGo call maxR (a + 1) r').sleeps
          = (natsFrom a (2 ^ a :: (retryGo call maxR (a + 1) r').sleeps).length).map (fun k => 2 ^ k)
        rw [List.length_cons]
        rw [show natsFrom a ((retryGo call maxR (a + 1) r').sleeps.length + 1)
            = a :: natsFrom (a + 1) (retryGo call maxR (a + 1) r').sleeps.length from rfl]
        rw [List.map_cons]
        congr 1
        exact ih (a + 1)
      · rw [if_neg hlt]
        rfl

/- Constant-level wrappers for the split lemmas. -/

theorem pySplit_append_fjson (a b : List Char)
    (h : pySplit fjsonChars (a ++ fjsonChars) = [a, []]) :
    pySplit fjsonChars (a ++ fjsonChars ++ b) = a :: pySplit fjsonChars b := by
  simp only [fjsonChars] at h ⊢
  exact pySplit_append btick [btick, btick, 'j', 's', 'o', 'n'] a b h

theorem pySplit_append_fence (a b : List Char)
    (h : pySplit fenceChars (a ++ fenceChars) = [a, []]) :
    pySplit fenceChars (a ++ fenceChars ++ b) = a :: pySplit fenceChars b := by
  simp only [fenceChars] at h ⊢
  exact pySplit_append btick [btick, btick] a b h

theorem containsSub_append_fjson (a b : List Char) :
    containsSub (a ++ fjsonChars ++ b) fjsonChars = true := by
  simp only [fjsonChars]
  exact containsSub_append btick [btick, btick, 'j', 's', 'o', 'n'] a b

theorem containsSub_append_fence (a b : List Char) :
    containsSub (a ++ fenceChars ++ b) fenceChars = true := by
  simp only [fenceChars]
  exact containsSub_append btick [btick, btick] a b

/-- Claim C1 counterexample: the reply 42 contains no delimiter pair of the
expected object shape, yet the extraction step succeeds (json.loads parses the
whole text as the number 42) instead of returning a failure outcome with
reason no-delimiters.  No no-delimiters failure reason exists in the code. -/
theorem extract_no_delims_counterexample :
    findChar (pyStrip wNum42) obrace = none ∧
    rfindChar (pyStrip wNum42) cbrace = none ∧
    extractObj wNum42 = Except.ok (Json.num wNum42) :=
  ⟨rfl, rfl, rfl⟩

/-- Claim C1 (amended): when the fence-processed text contains no opening
brace or no closing brace, the extraction step does not report a distinct
no-delimiters failure; it hands the whole fence-processed text to json.loads,
so the outcome is success for any valid JSON of any shape, and otherwise the
parser's syntax error. -/
theorem extract_no_delims_parse_whole (raw : List Char)
    (h : findChar (fenceExtract raw) obrace = none ∨
         rfindChar (fenceExtract raw) cbrace = none) :
    extractObj raw = json_loads (fenceExtract raw) := by
  unfold extractObj
  rw [delimTrim_none obrace cbrace (fenceExtract raw) h]

theorem extract_no_delims_parse_whole_witness :
    (findChar (fenceExtract wSorry) obrace = none ∨
      rfindChar (fenceExtract wSorry) cbrace = none) ∧
    extractObj wSorry = json_loads (fenceExtract wSorry) :=
  ⟨Or.inl rfl, extract_no_delims_parse_whole wSorry (Or.inl rfl)⟩

/-- Claim C2: with the default max_retries = 3, a remote call that fails on
the first two attempts and succeeds on the third makes generate_with_retry
return the third attempt's result, sleeping 2 ^ 0 then 2 ^ 1 time units
between the attempts, attempts counted from 0. -/
theorem retry_transient_then_success (call : Nat → Except (List Char) (List Char))
    (e0 e1 t : List Char)
    (h0 : call 0 = Except.error e0) (h1 : call 1 = Except.error e1)
    (h2 : call 2 = Except.ok t) :
    generate_with_retry call defaultMaxRetries
      = ⟨RetryOutcome.value t, [2 ^ 0, 2 ^ 1], [0, 1, 2]⟩ ∧ defaultMaxRetries = 3 := by
  refine ⟨?_, rfl⟩
  show retryGo call defaultMaxRetries 0 3 = _
  simp only [retryGo, h0, h1, h2]
  norm_num [defaultMaxRetries]

theorem retry_transient_then_success_witness :
    generate_with_retry wFlaky defaultMaxRetries
      = ⟨RetryOutcome.value wTextT, [2 ^ 0, 2 ^ 1], [0, 1, 2]⟩ ∧ defaultMaxRetries = 3 :=
  retry_transient_then_success wFlaky wErrA wErrB wTextT rfl rfl rfl

/-- Claim C3: a remote call that fails on every attempt makes
generate_with_retry with max_retries = N (N at least 1) run exactly the
attempts 0, ..., N - 1 and then re-raise the last failure signal unchanged. -/
theorem retry_exhaustion_propagates_last (call : Nat → Except (List Char) (List Char))
    (errf : Nat → List Char) (N : Nat) (hN : 1 ≤ N)
    (hf : ∀ i, call i = Except.error (errf i)) :
    generate_with_retry call (N : Int)
      = ⟨RetryOutcome.raised (errf (N - 1)),
         (natsFrom 0 (N - 1)).map (fun k => 2 ^ k), natsFrom 0 N⟩ := by
  unfold generate_with_retry
  rw [show ((N : Nat) : Int).toNat = N from by simp]
  have h := retryGo_all_fail call errf hf (N : Int) N 0 hN (by push_cast; omega)
  simpa using h

theorem retry_exhaustion_propagates_last_witness :
    1 ≤ 3 ∧ generate_with_retry wAuthCall ((3 : Nat) : Int)
      = ⟨RetryOutcome.raised eAuthMsg,
         (natsFrom 0 (3 - 1)).map (fun k => 2 ^ k), natsFrom 0 3⟩ :=
  ⟨by decide,
    retry_exhaustion_propagates_last wAuthCall (fun _ => eAuthMsg) 3 (by decide) (fun _ => rfl)⟩

/-- Claim C4 counterexample: generate has no unauthorized / invalid-credential
classification: an invalid-credential error message is classified exactly like
a generic unknown error, and the re-raised signal is a generic exception whose
message is the prefixed original text, with no classification attached. -/
theorem generate_unauthorized_not_classified :
    classifyError eAuthMsg = ErrClass.unknownErr ∧
    classifyError eUnknownMsg = ErrClass.unknownErr ∧
    generate (Except.error eAuthMsg) = Except.error (genFailMsgHead ++ eAuthMsg) :=
  ⟨rfl, rfl, rfl⟩

/-- Claim C4 (amended): generate distinguishes only quota (429 or
RESOURCE_EXHAUSTED) and model-not-found (404 or not found) in its printed
diagnostics; every other failure, including unauthorized / invalid
credential, is classified unknown, and the re-raised uniform signal carries
only the prefixed original message. -/
theorem generate_unknown_class_uniform_raise (e : List Char)
    (h429 : containsSub e s429chars = false)
    (hrex : containsSub e sResExChars = false)
    (h404 : containsSub e s404chars = false)
    (hnfd : containsSub (pyLower e) sNotFoundChars = false) :
    classifyError e = ErrClass.unknownErr ∧
    generate (Except.error e) = Except.error (genFailMsgHead ++ e) := by
  refine ⟨?_, rfl⟩
  simp [classifyError, h429, hrex, h404, hnfd]

theorem generate_unknown_class_uniform_raise_witness :
    containsSub eAuthMsg s429chars = false ∧
    containsSub eAuthMsg sResExChars = false ∧
    containsSub eAuthMsg s404chars = false ∧
    containsSub (pyLower eAuthMsg) sNotFoundChars = false ∧
    (classifyError eAuthMsg = ErrClass.unknownErr ∧
      generate (Except.error eAuthMsg) = Except.error (genFailMsgHead ++ eAuthMsg)) :=
  ⟨rfl, rfl, rfl, rfl, generate_unknown_class_uniform_raise eAuthMsg rfl rfl rfl rfl⟩

/-- Claim C5: constructing the client with no credential in the environment
(or an empty one, which Python treats as falsy) raises the fatal
configuration error immediately, before any client object exists; no retry
logic is involved in construction. -/
theorem client_init_missing_key_fails_fast (envKey : Option (List Char))
    (modelName : List Char) (h : envKey = none ∨ envKey = some []) :
    geminiClientInit envKey modelName = Except.error apiKeyMissingMsg := by
  rcases h with rfl | rfl <;> rfl

theorem client_init_missing_key_fails_fast_witness :
    ((none : Option (List Char)) = none ∨ (none : Option (List Char)) = some []) ∧
    geminiClientInit none wModelName = Except.error apiKeyMissingMsg :=
  ⟨Or.inl rfl, client_init_missing_key_fails_fast none wModelName (Or.inl rfl)⟩

/-- Claim C6: a reply that wraps a valid JSON object in a JSON-tagged fence is
extracted to exactly the parsed content of that block, whatever prose
surrounds it: the text between the first such opening fence and the next
fence delimiter is isolated, stripped, and parsed. -/
theorem extract_json_tagged_fence (raw p1 mid p2 : List Char) (v : Json)
    (hstrip : pyStrip raw = p1 ++ fjsonChars ++ mid ++ fenceChars ++ p2)
    (hp1 : pySplit fjsonChars (p1 ++ fjsonChars) = [p1, []])
    (hmid : pySplit fenceChars (mid ++ fenceChars) = [mid, []])
    (hp2 : p2.take 1 ≠ [btick])
    (hhead : (pyStrip mid).head? = some obrace)
    (hlast : (pyStrip mid).getLast? = some cbrace)
    (hparse : json_loads (pyStrip mid) = Except.ok v) :
    extractObj raw = Except.ok v := by
  have hassoc : p1 ++ fjsonChars ++ mid ++ fenceChars ++ p2
      = p1 ++ fjsonChars ++ (mid ++ fenceChars ++ p2) := by
    simp [List.append_assoc]
  have hcf : containsSub (pyStrip raw) fjsonChars = true := by
    rw [hstrip, hassoc]
    exact containsSub_append_fjson p1 (mid ++ fenceChars ++ p2)
  have hfe : fenceExtract raw = pyStrip mid := by
    simp only [fenceExtract]
    rw [if_pos hcf]
    rw [hstrip, hassoc, pySplit_append_fjson p1 (mid ++ fenceChars ++ p2) hp1]
    rw [show (p1 :: pySplit fjsonChars (mid ++ fenceChars ++ p2)).getD 1 []
        = (pySplit fjsonChars (mid ++ fenceChars ++ p2)).getD 0 [] from rfl]
    rw [fence_after_fjson p2 hp2 mid hmid]
  unfold extractObj
  rw [hfe, delimTrim_head_last obrace cbrace (pyStrip mid) hhead hlast, hparse]

theorem extract_json_tagged_fence_witness :
    pyStrip wRawTagged = wP1 ++ fjsonChars ++ wMid ++ fenceChars ++ wP2 ∧
    pySplit fjsonChars (wP1 ++ fjsonChars) = [wP1, []] ∧
    pySplit fenceChars (wMid ++ fenceChars) = [wMid, []] ∧
    wP2.take 1 ≠ [btick] ∧
    extractObj wRawTagged = Except.ok wMidJson :=
  ⟨rfl, rfl, rfl, by decide,
    extract_json_tagged_fence wRawTagged wP1 wMid wP2 wMidJson rfl rfl rfl (by decide) rfl rfl rfl⟩

/-- Claim C7: a reply with no JSON-tagged fence but with an untagged fenced
block has the content of the first fenced segment taken and stripped by the
fence-isolation step, and the fence split indeed yields at least the two
parts that the code's guard requires. -/
theorem extract_untagged_fence_first_segment (raw p1 mid p2 : List Char)
    (hstrip : pyStrip raw = p1 ++ fenceChars ++ mid ++ fenceChars ++ p2)
    (hnj : containsSub (pyStrip raw) fjsonChars = false)
    (hp1 : pySplit fenceChars (p1 ++ fenceChars) = [p1, []])
    (hmid : pySplit fenceChars (mid ++ fenceChars) = [mid, []]) :
    fenceExtract raw = pyStrip mid ∧ 2 ≤ (pySplit fenceChars (pyStrip raw)).length := by
  have hassoc : p1 ++ fenceChars ++ mid ++ fenceChars ++ p2
      = p1 ++ fenceChars ++ (mid ++ fenceChars ++ p2) := by
    simp [List.append_assoc]
  have hcf : containsSub (pyStrip raw) fenceChars = true := by
    rw [hstrip, hassoc]
    exact containsSub_append_fence p1 (mid ++ fenceChars ++ p2)
  have hsplit : pySplit fenceChars (pyStrip raw)
      = p1 :: (mid :: pySplit fenceChars p2) := by
    rw [hstrip, hassoc, pySplit_append_fence p1 (mid ++ fenceChars ++ p2) hp1,
      pySplit_append_fence mid p2 hmid]
  constructor
  · simp only [fenceExtract]
    rw [hnj]
    simp only [Bool.false_eq_true, if_false]
    rw [if_pos hcf, hsplit]
    rw [if_pos (by simp)]
    rfl
  · rw [hsplit]
    simp

theorem extract_untagged_fence_first_segment_witness :
    pyStrip wRawUntagged = wP1U ++ fenceChars ++ wMidU ++ fenceChars ++ wP2U ∧
    containsSub (pyStrip wRawUntagged) fjsonChars = false ∧
    (fenceExtract wRawUntagged = pyStrip wMidU ∧
      2 ≤ (pySplit fenceChars (pyStrip wRawUntagged)).length) :=
  ⟨rfl, rfl, extract_untagged_fence_first_segment wRawUntagged wP1U wMidU wP2U rfl rfl rfl rfl⟩

/-- Claim C8: for a fence-free reply the extraction slices from the first to
the last occurrence of the expected shape's delimiter pair and parses the
inclusive substring; in particular a reply holding exactly one balanced
top-level object (or array, in the array-shaped tab) is parsed correctly. -/
theorem extract_first_last_delimiter_scan :
    (∀ raw pre seg post : List Char, ∀ v : Json,
      containsSub (pyStrip raw) fenceChars = false →
      pyStrip raw = pre ++ seg ++ post →
      obrace ∉ pre → cbrace ∉ post →
      seg.head? = some obrace → seg.getLast? = some cbrace →
      json_loads seg = Except.ok v →
      extractObj raw = Except.ok v) ∧
    (∀ raw pre seg post : List Char, ∀ v : Json,
      containsSub (pyStrip raw) fenceChars = false →
      pyStrip raw = pre ++ seg ++ post →
      '[' ∉ pre → ']' ∉ post →
      seg.head? = some '[' → seg.getLast? = some ']' →
      json_loads seg = Except.ok v →
      extractArr raw = Except.ok v) := by
  constructor
  · intro raw pre seg post v hnf hstrip hop hcl hh hl hparse
    unfold extractObj
    rw [fenceExtract_no_fence raw hnf, hstrip,
      delimTrim_isolate obrace cbrace pre seg post hop hcl hh hl, hparse]
  · intro raw pre seg post v hnf hstrip hop hcl hh hl hparse
    unfold extractArr
    rw [fenceExtract_no_fence raw hnf, hstrip,
      delimTrim_isolate '[' ']' pre seg post hop hcl hh hl, hparse]

theorem extract_first_last_delimiter_scan_witness :
    extractObj wRawScan = Except.ok wObjVal ∧ extractArr wArrSeg = Except.ok wArrVal :=
  ⟨extract_first_last_delimiter_scan.1 wRawScan wObjPre wObjSeg wObjPost wObjVal
      rfl rfl (by decide) (by decide) rfl rfl rfl,
    extract_first_last_delimiter_scan.2 wArrSeg [] wArrSeg [] wArrVal
      rfl rfl (by decide) (by decide) rfl rfl rfl⟩

/-- Claim C9: the retry loop is blind to the failure classification: two
remote calls failing at exactly the same attempts produce identical sleep
sequences and identical attempt traces whatever their error texts, and the
sleep sequence is always the jitter-free exponential prefix 2 ^ 0, 2 ^ 1, ...
with no short-circuit for permanently-fatal classes. -/
theorem retry_uniform_across_classifications
    (c1 c2 : Nat → Except (List Char) (List Char)) (maxR : Int)
    (hsame : ∀ i, exceptOk (c1 i) = exceptOk (c2 i)) :
    (generate_with_retry c1 maxR).sleeps = (generate_with_retry c2 maxR).sleeps ∧
    (generate_with_retry c1 maxR).attempts = (generate_with_retry c2 maxR).attempts ∧
    (generate_with_retry c1 maxR).sleeps
      = (natsFrom 0 (generate_with_retry c1 maxR).sleeps.length).map (fun k => 2 ^ k) := by
  obtain ⟨hs, ha⟩ := retryGo_pattern_eq c1 c2 maxR hsame maxR.toNat 0
  exact ⟨hs, ha, retryGo_sleeps_shape c1 maxR maxR.toNat 0⟩

theorem retry_uniform_across_classifications_witness :
    (∀ i, exceptOk (wQuotaCall i) = exceptOk (wAuthCall i)) ∧
    ((generate_with_retry wQuotaCall 3).sleeps = (generate_with_retry wAuthCall 3).sleeps ∧
      (generate_with_retry wQuotaCall 3).attempts = (generate_with_retry wAuthCall 3).attempts ∧
      (generate_with_retry wQuotaCall 3).sleeps
        = (natsFrom 0 (generate_with_retry wQuotaCall 3).sleeps.length).map (fun k => 2 ^ k)) :=
  ⟨fun _ => rfl, retry_uniform_across_classifications wQuotaCall wAuthCall 3 (fun _ => rfl)⟩

/-- Claim C10: with max_retries at most 0, the Python range is empty, so the
loop body never runs: no remote attempt is made, no sleep happens, nothing is
raised, and the function falls through returning None rather than a text. -/
theorem retry_nonpositive_returns_none (call : Nat → Except (List Char) (List Char))
    (maxR : Int) (h : maxR ≤ 0) :
    generate_with_retry call maxR = ⟨RetryOutcome.nonePy, [], []⟩ := by
  unfold generate_with_retry
  rw [Int.toNat_of_nonpos h]
  rfl

theorem retry_nonpositive_returns_none_witness :
    (0 : Int) ≤ 0 ∧ generate_with_retry wOkCall 0 = ⟨RetryOutcome.nonePy, [], []⟩ :=
  ⟨by decide, retry_nonpositive_returns_none wOkCall 0 (by decide)⟩
